import Mathlib

/-!
Verification of the NetBuffer repository: a tiered address-tree byte buffer
(src/main.cpp, class NetBuffer) backed by a fixed-size block pool allocator
(src/StupidAlocator.hpp, struct StupidAllocator).

The configuration constants CHUNK_SIZE, MIDDLE_SIZE and L0_SIZE are powers of
two (enforced by static_assert, main.cpp lines 60-63), so a configuration is
embedded by the base-two logarithms of these three sizes together with the
tree height; the Log template of the source computes exactly these logarithms
on powers of two.  Logical offsets and sizes are size_t in the source; they
are embedded as Nat, with an explicit reduction modulo 2 ^ 64 at the one place
where the source actually relies on size_t wraparound (the sAllocatedEnd
decrement in the catch block of alloc).
-/

namespace NetBuf

/-- Configuration of the buffer: CHUNK_SIZE = 2 ^ cLog, MIDDLE_SIZE = 2 ^ mLog,
L0_SIZE = 2 ^ lLog, and the tree height.  In the source MIDDLE_SIZE is
CHUNK_SIZE / sizeof(Link); it is kept here as an independent power of two. -/
structure Cfg where
  cLog : Nat
  mLog : Nat
  lLog : Nat
  height : Nat
  deriving DecidableEq

namespace Cfg

/-- CHUNK_SIZE: bytes per leaf data chunk and per node block. -/
def CHUNK_SIZE (c : Cfg) : Nat := 2 ^ c.cLog

/-- MIDDLE_SIZE = CHUNK_SIZE / sizeof(Link) (main.cpp line 56). -/
def MIDDLE_SIZE (c : Cfg) : Nat := 2 ^ c.mLog

/-- L0_SIZE: fan-out of the root array. -/
def L0_SIZE (c : Cfg) : Nat := 2 ^ c.lLog

/-- SUBTREE_CARDINALITY = CHUNK_SIZE * MIDDLE_SIZE ^ (HEIGHT - 2) (line 57). -/
def SUBTREE_CARDINALITY (c : Cfg) : Nat :=
  c.CHUNK_SIZE * c.MIDDLE_SIZE ^ (c.height - 2)

/-- CARDINALITY = L0_SIZE * SUBTREE_CARDINALITY (line 58). -/
def CARDINALITY (c : Cfg) : Nat := c.L0_SIZE * c.SUBTREE_CARDINALITY

/-- Validity constraints taken from the static_asserts (main.cpp lines 60-64):
HEIGHT >= 2, L0_SIZE >= 2, and CHUNK_SIZE >= 2 * sizeof(Link), which makes
MIDDLE_SIZE = CHUNK_SIZE / sizeof(Link) >= 2. -/
def Valid (c : Cfg) : Prop := 2 ≤ c.height ∧ 1 ≤ c.mLog ∧ 1 ≤ c.lLog

instance (c : Cfg) : Decidable c.Valid := by
  unfold Valid; infer_instance

theorem SUBTREE_CARDINALITY_eq_pow (c : Cfg) :
    c.SUBTREE_CARDINALITY = 2 ^ (c.cLog + (c.height - 2) * c.mLog) := by
  unfold SUBTREE_CARDINALITY CHUNK_SIZE MIDDLE_SIZE
  rw [← Nat.pow_mul, ← Nat.pow_add, Nat.mul_comm (c.mLog)]

theorem CHUNK_SIZE_pos (c : Cfg) : 0 < c.CHUNK_SIZE := Nat.pos_pow_of_pos _ (by omega)

theorem SUBTREE_CARDINALITY_pos (c : Cfg) : 0 < c.SUBTREE_CARDINALITY := by
  rw [c.SUBTREE_CARDINALITY_eq_pow]; exact Nat.pos_pow_of_pos _ (by omega)

end Cfg

/-- root_offset (main.cpp lines 93-97): (aPos >> sShift) & (L0_SIZE - 1) with
sShift = Log CHUNK_SIZE + (HEIGHT - 2) * Log MIDDLE_SIZE. -/
def root_offset (c : Cfg) (aPos : Nat) : Nat :=
  (aPos >>> (c.cLog + (c.height - 2) * c.mLog)) &&& (c.L0_SIZE - 1)

/-- mid_offset (main.cpp lines 98-103): (aPos >> sShift) & (MIDDLE_SIZE - 1)
with sShift = Log CHUNK_SIZE + (HEIGHT - 2 - aLvl) * Log MIDDLE_SIZE. -/
def mid_offset (c : Cfg) (aPos aLvl : Nat) : Nat :=
  (aPos >>> (c.cLog + (c.height - 2 - aLvl) * c.mLog)) &&& (c.MIDDLE_SIZE - 1)

/-- data_offset (main.cpp lines 104-107): aPos & (CHUNK_SIZE - 1). -/
def data_offset (c : Cfg) (aPos : Nat) : Nat := aPos &&& (c.CHUNK_SIZE - 1)

/-- Root slot selected by the division/modulo walk of alloc (line 131), its
catch block (line 155) and unalloc (line 194):
sAllocatedEnd / SUBTREE_CARDINALITY % L0_SIZE. -/
def walkRootIdx (c : Cfg) (p : Nat) : Nat := p / c.SUBTREE_CARDINALITY % c.L0_SIZE

/-- Child indices produced by the division/modulo walk of alloc
(lines 133-144) and unalloc (lines 196-204).  Both loops carry
sSubtreeCardinality (sc) and sNextOffsetVector (ov) and at each of the
HEIGHT - 2 levels first divide sc by MIDDLE_SIZE, then select child
ov / sc, then reduce ov modulo sc.  fuel counts the remaining iterations. -/
def walkIdxsGo (c : Cfg) : Nat → Nat → Nat → List Nat
  | 0, _, _ => []
  | fuel + 1, sc, ov =>
    ov / (sc / c.MIDDLE_SIZE) ::
      walkIdxsGo c fuel (sc / c.MIDDLE_SIZE) (ov % (sc / c.MIDDLE_SIZE))

/-- Child-index sequence of the walk, started as in alloc line 132 and
unalloc line 195 with sNextOffsetVector = p % SUBTREE_CARDINALITY. -/
def walkIdxs (c : Cfg) (p : Nat) : List Nat :=
  walkIdxsGo c (c.height - 2) c.SUBTREE_CARDINALITY (p % c.SUBTREE_CARDINALITY)

theorem pow_succ_div_pow (a f m : Nat) : 2 ^ (a + (f + 1) * m) / 2 ^ m = 2 ^ (a + f * m) := by
  rw [show a + (f + 1) * m = a + f * m + m by ring, Nat.pow_add]
  exact Nat.mul_div_cancel _ (Nat.pos_pow_of_pos _ (by omega))

theorem walkIdxsGo_spec (c : Cfg) :
    ∀ f p, walkIdxsGo c f (2 ^ (c.cLog + f * c.mLog)) (p % 2 ^ (c.cLog + f * c.mLog)) =
      (List.range f).map
        (fun j => p / 2 ^ (c.cLog + (f - 1 - j) * c.mLog) % 2 ^ c.mLog) := by
  intro f
  induction f with
  | zero => intro p; rfl
  | succ f ih =>
    intro p
    have hdiv : 2 ^ (c.cLog + (f + 1) * c.mLog) / c.MIDDLE_SIZE = 2 ^ (c.cLog + f * c.mLog) :=
      pow_succ_div_pow c.cLog f c.mLog
    have hfac : 2 ^ (c.cLog + (f + 1) * c.mLog) =
        2 ^ (c.cLog + f * c.mLog) * 2 ^ c.mLog := by
      rw [← Nat.pow_add]; ring_nf
    have hdvd : (2 ^ (c.cLog + f * c.mLog) : Nat) ∣ 2 ^ (c.cLog + (f + 1) * c.mLog) :=
      ⟨2 ^ c.mLog, hfac⟩
    rw [walkIdxsGo, hdiv, Nat.mod_mod_of_dvd p hdvd, ih p]
    have hhead : p % 2 ^ (c.cLog + (f + 1) * c.mLog) / 2 ^ (c.cLog + f * c.mLog) =
        p / 2 ^ (c.cLog + f * c.mLog) % 2 ^ c.mLog := by
      rw [hfac]; exact Nat.mod_mul_right_div_self p _ _
    rw [hhead, List.range_succ_eq_map, List.map_cons, List.map_map]
    simp only [Nat.add_sub_cancel]
    refine congrArg _ (List.map_congr_left fun j hj => ?_)
    simp only [Function.comp_apply]
    have he : f - 1 - j = f - Nat.succ j := by omega
    rw [he]

/-- C1: for every logical offset p under a valid power-of-two configuration,
the division/modulo walk used by alloc and unalloc selects the same root slot
as the shift/mask formula root_offset, the same child index at every interior
level l in [1, HEIGHT - 2] as mid_offset, and the leaf byte offset
data_offset agrees with p mod CHUNK_SIZE. -/
theorem walk_eq_shift_mask (c : Cfg) (hc : c.Valid) (p : Nat) :
    walkRootIdx c p = root_offset c p ∧
    (∀ l, 1 ≤ l → l ≤ c.height - 2 →
      (walkIdxs c p)[l - 1]? = some (mid_offset c p l)) ∧
    data_offset c p = p % c.CHUNK_SIZE := by
  refine ⟨?_, ?_, ?_⟩
  · unfold walkRootIdx root_offset Cfg.L0_SIZE
    rw [Nat.shiftRight_eq_div_pow, Nat.and_pow_two_sub_one_eq_mod,
      c.SUBTREE_CARDINALITY_eq_pow]
  · intro l hl1 hl2
    unfold walkIdxs
    rw [c.SUBTREE_CARDINALITY_eq_pow, walkIdxsGo_spec c (c.height - 2) p]
    have hlt : l - 1 < c.height - 2 := by omega
    rw [List.getElem?_map, List.getElem?_range hlt]
    simp only [Option.map_some']
    unfold mid_offset Cfg.MIDDLE_SIZE
    rw [Nat.shiftRight_eq_div_pow, Nat.and_pow_two_sub_one_eq_mod]
    have he : c.height - 2 - 1 - (l - 1) = c.height - 2 - l := by omega
    rw [he]
  · unfold data_offset Cfg.CHUNK_SIZE
    exact Nat.and_pow_two_sub_one_eq_mod p c.cLog

/-- Witness for walk_eq_shift_mask at the configuration CHUNK_SIZE = 128,
MIDDLE_SIZE = 8, L0_SIZE = 4, HEIGHT = 4 and offset 123456. -/
theorem walk_eq_shift_mask_witness :
    (Cfg.mk 7 3 2 4).Valid ∧
    (walkRootIdx ⟨7, 3, 2, 4⟩ 123456 = root_offset ⟨7, 3, 2, 4⟩ 123456 ∧
      (∀ l, 1 ≤ l → l ≤ (Cfg.mk 7 3 2 4).height - 2 →
        (walkIdxs ⟨7, 3, 2, 4⟩ 123456)[l - 1]? =
          some (mid_offset ⟨7, 3, 2, 4⟩ 123456 l)) ∧
      data_offset ⟨7, 3, 2, 4⟩ 123456 = 123456 % (Cfg.mk 7 3 2 4).CHUNK_SIZE) :=
  ⟨by decide, walk_eq_shift_mask ⟨7, 3, 2, 4⟩ (by decide) 123456⟩

/-- alignUp embeds the C idiom (p + CHUNK_SIZE - 1) & ~(CHUNK_SIZE - 1)
(alloc lines 127/151, unalloc lines 188-189): round p up to the next multiple
of the power of two CHUNK_SIZE. -/
def alignUp (c : Cfg) (p : Nat) : Nat :=
  (p + c.CHUNK_SIZE - 1) / c.CHUNK_SIZE * c.CHUNK_SIZE

/-- alignDownSubtree embeds m_Begin & ~(SUBTREE_CARDINALITY - 1) (line 121):
round down to a multiple of the power of two SUBTREE_CARDINALITY. -/
def alignDownSubtree (c : Cfg) (p : Nat) : Nat :=
  p / c.SUBTREE_CARDINALITY * c.SUBTREE_CARDINALITY

/-- Chunk boundaries visited by the forward loop of alloc (lines 128/148):
while a < target, visit a and step a by CHUNK_SIZE.  The loop is embedded
with explicit fuel to keep it structural; since CHUNK_SIZE >= 1, fuel
target - a is always enough. -/
def boundariesUpF (c : Cfg) : Nat → Nat → Nat → List Nat
  | 0, _, _ => []
  | fuel + 1, a, target =>
    if a < target then a :: boundariesUpF c fuel (a + c.CHUNK_SIZE) target else []

def boundariesUp (c : Cfg) (a target : Nat) : List Nat :=
  boundariesUpF c (target - a) a target

/-- Chunk boundaries visited by the loop of unalloc (lines 190-192): while
a differs from target, step a down by CHUNK_SIZE and visit it.  In every
call the source makes, a and target are multiples of CHUNK_SIZE with
target <= a, so fuel a - target is always enough. -/
def boundariesDownF (c : Cfg) : Nat → Nat → Nat → List Nat
  | 0, _, _ => []
  | fuel + 1, a, target =>
    if target ≠ a then
      (a - c.CHUNK_SIZE) :: boundariesDownF c fuel (a - c.CHUNK_SIZE) target
    else []

def boundariesDown (c : Cfg) (a target : Nat) : List Nat :=
  boundariesDownF c (a - target) a target

/-- NodeId identifies a tree block: (level, index of its covered range).
The root array is level 0 and is not a pool block; interior nodes are levels
1 .. HEIGHT - 2; leaf data chunks are level HEIGHT - 1.  A level-l block
covers 2 ^ (cLog + (HEIGHT - 1 - l) * mLog) bytes, and the index is the
block's starting offset divided by that span. -/
abbrev NodeId := Nat × Nat

/-- nodeSpan: bytes covered by one level-l block. -/
def nodeSpan (c : Cfg) (l : Nat) : Nat := 2 ^ (c.cLog + (c.height - 1 - l) * c.mLog)

/-- Interior nodes created by one pass of alloc's inner loop (lines 133-144)
at chunk boundary b.  Carrying the loop state (level counter h,
sSubtreeCardinality sc, sNextOffsetVector ov), a node is created exactly when
ov = 0; it is the child array hung below the current cell, i.e. the level
h + 1 block whose covered range starts at b, identified by (h + 1, b / sc)
since sc is the byte span of that block on loop entry. -/
def allocMidsGo (c : Cfg) (b : Nat) : Nat → Nat → Nat → Nat → List NodeId
  | 0, _, _, _ => []
  | fuel + 1, h, sc, ov =>
    (if ov = 0 then [(h + 1, b / sc)] else []) ++
      allocMidsGo c b fuel (h + 1) (sc / c.MIDDLE_SIZE) (ov % (sc / c.MIDDLE_SIZE))

def allocMids (c : Cfg) (b : Nat) : List NodeId :=
  allocMidsGo c b (c.height - 2) 0 c.SUBTREE_CARDINALITY (b % c.SUBTREE_CARDINALITY)

/-- Blocks created by alloc's forward walk at boundary b: the interior nodes
of the inner loop followed by the leaf data chunk allocated at lines 145-147. -/
def boundaryCreates (c : Cfg) (b : Nat) : List NodeId :=
  allocMids c b ++ [(c.height - 1, b / c.CHUNK_SIZE)]

/-- Blocks created by alloc (lines 127-149) when extending from end e by n
bytes: the per-boundary creations in ascending boundary order, which is also
the order of the pool allocations the call makes. -/
def allocCreates (c : Cfg) (e n : Nat) : List NodeId :=
  (boundariesUp c (alignUp c e) (e + n)).flatMap (boundaryCreates c)

/-- Interior nodes released by one pass of unalloc's inner loop
(lines 196-204) at chunk boundary b.  The loop saves the node it stands on,
divides sSubtreeCardinality, descends, and frees the saved node exactly when
sNextOffsetVector was 0 on loop entry; the freed node is the level h + 1
block covering b, identified by (h + 1, b / sc) with sc its byte span. -/
def unallocMidsGo (c : Cfg) (b : Nat) : Nat → Nat → Nat → Nat → List NodeId
  | 0, _, _, _ => []
  | fuel + 1, h, sc, ov =>
    (if ov = 0 then [(h + 1, b / sc)] else []) ++
      unallocMidsGo c b fuel (h + 1) (sc / c.MIDDLE_SIZE) (ov % (sc / c.MIDDLE_SIZE))

def unallocMids (c : Cfg) (b : Nat) : List NodeId :=
  unallocMidsGo c b (c.height - 2) 0 c.SUBTREE_CARDINALITY (b % c.SUBTREE_CARDINALITY)

/-- Blocks released by unalloc at boundary b: the interior nodes freed inside
the loop, in loop order, then the leaf data chunk freed at line 205. -/
def boundaryFrees (c : Cfg) (b : Nat) : List NodeId :=
  unallocMids c b ++ [(c.height - 1, b / c.CHUNK_SIZE)]

/-- Blocks released by unalloc (lines 184-208) when shrinking from end e by n
bytes, walking boundaries from alignUp e down to alignUp (e - n). -/
def unallocFrees (c : Cfg) (e n : Nat) : List NodeId :=
  (boundariesDown c (alignUp c e) (alignUp c (e - n))).flatMap (boundaryFrees c)

/-- Buffer state abstraction: the logical cursors m_Begin and m_End and the
multiset of resident tree blocks (interior nodes and leaf chunks), each
identified by its NodeId. -/
structure St where
  bufBegin : Nat
  bufEnd : Nat
  resident : Multiset NodeId
  deriving DecidableEq

/-- alloc (main.cpp lines 119-182) on the state abstraction, for runs in
which no pool allocation fails: the capacity check of lines 121-123 first
(returning none for the thrown std::bad_alloc, with the object untouched
since the throw precedes every mutation), then the creation walk, then m_End
advances and the previous m_End is returned (lines 179-181). -/
def alloc (c : Cfg) (s : St) (n : Nat) : St × Option Nat :=
  if c.CARDINALITY < s.bufEnd + n - alignDownSubtree c s.bufBegin then (s, none)
  else
    ({ s with
        bufEnd := s.bufEnd + n
        resident := s.resident + ↑(allocCreates c s.bufEnd n) },
      some s.bufEnd)

/-- unalloc (main.cpp lines 184-208) on the state abstraction: release the
walk's blocks, set m_End to m_End - aSize. -/
def unalloc (c : Cfg) (s : St) (n : Nat) : St :=
  { s with
      bufEnd := s.bufEnd - n
      resident := s.resident - ↑(unallocFrees c s.bufEnd n) }

/-- C2: alloc reports the out-of-capacity error if and only if
end + size - (begin rounded down to a SUBTREE_CARDINALITY multiple) exceeds
CARDINALITY, and when it does, it leaves begin, end and every resident node
and chunk exactly as they were.  The hypotheses delimit the size_t domain on
which the Nat embedding coincides with the source's size_t arithmetic. -/
theorem alloc_capacity_check (c : Cfg) (s : St) (n : Nat)
    (hbe : s.bufBegin ≤ s.bufEnd) (hov : s.bufEnd + n < 2 ^ 64) :
    ((alloc c s n).2 = none ↔
      c.CARDINALITY < s.bufEnd + n - alignDownSubtree c s.bufBegin) ∧
    ((alloc c s n).2 = none → (alloc c s n).1 = s) := by
  unfold alloc
  by_cases h : c.CARDINALITY < s.bufEnd + n - alignDownSubtree c s.bufBegin
  · simp [h]
  · simp [h]

/-- Witness for alloc_capacity_check: at CHUNK_SIZE = 128, MIDDLE_SIZE = 8,
L0_SIZE = 4, HEIGHT = 3 (CARDINALITY = 4096), requesting 5000 bytes from the
empty buffer fails and leaves the state unchanged. -/
theorem alloc_capacity_check_witness :
    ((0 : Nat) ≤ 0 ∧ 0 + 5000 < 2 ^ 64) ∧
    (((alloc ⟨7, 3, 2, 3⟩ ⟨0, 0, 0⟩ 5000).2 = none ↔
      (Cfg.mk 7 3 2 3).CARDINALITY <
        0 + 5000 - alignDownSubtree ⟨7, 3, 2, 3⟩ 0) ∧
    ((alloc ⟨7, 3, 2, 3⟩ ⟨0, 0, 0⟩ 5000).2 = none →
      (alloc ⟨7, 3, 2, 3⟩ ⟨0, 0, 0⟩ 5000).1 = ⟨0, 0, 0⟩)) :=
  ⟨⟨by decide, by decide⟩,
    alloc_capacity_check ⟨7, 3, 2, 3⟩ ⟨0, 0, 0⟩ 5000 (by decide) (by decide)⟩

theorem boundariesUpF_of_le (c : Cfg) (g a target : Nat) (h : target ≤ a) :
    boundariesUpF c g a target = [] := by
  cases g with
  | zero => rfl
  | succ g => simp [boundariesUpF, Nat.not_lt.mpr h]

theorem boundariesUpF_congr (c : Cfg) (target : Nat) :
    ∀ f g a, target - a ≤ f → target - a ≤ g →
      boundariesUpF c f a target = boundariesUpF c g a target := by
  intro f
  induction f with
  | zero =>
    intro g a hf _
    rw [boundariesUpF_of_le c 0 a target (by omega),
      boundariesUpF_of_le c g a target (by omega)]
  | succ f ih =>
    intro g a hf hg
    match g with
    | 0 =>
      rw [boundariesUpF_of_le c (f + 1) a target (by omega),
        boundariesUpF_of_le c 0 a target (by omega)]
    | g + 1 =>
      by_cases h : a < target
      · have hC := c.CHUNK_SIZE_pos
        simp only [boundariesUpF, if_pos h]
        exact congrArg _ (ih g (a + c.CHUNK_SIZE) (by omega) (by omega))
      · rw [boundariesUpF_of_le c (f + 1) a target (by omega),
          boundariesUpF_of_le c (g + 1) a target (by omega)]

theorem boundariesUp_cons (c : Cfg) (a target : Nat) :
    boundariesUp c a target =
      if a < target then a :: boundariesUp c (a + c.CHUNK_SIZE) target else [] := by
  by_cases h : a < target
  · have hC := c.CHUNK_SIZE_pos
    rw [if_pos h]
    unfold boundariesUp
    have h1 : target - a = (target - a - 1) + 1 := by omega
    rw [h1]
    simp only [boundariesUpF, if_pos h]
    exact congrArg _ (boundariesUpF_congr c target _ _ _ (by omega) (by omega))
  · rw [if_neg h]
    exact boundariesUpF_of_le c _ a target (by omega)

theorem boundariesUp_spec (c : Cfg) :
    ∀ m a target, target - a ≤ m →
      boundariesUp c a target =
        (List.range ((target - a + c.CHUNK_SIZE - 1) / c.CHUNK_SIZE)).map
          (fun i => a + i * c.CHUNK_SIZE) := by
  intro m
  induction m with
  | zero =>
    intro a target h
    have hC := c.CHUNK_SIZE_pos
    have hx : target - a = 0 := by omega
    rw [boundariesUp_cons, if_neg (by omega), hx,
      show (0 + c.CHUNK_SIZE - 1) / c.CHUNK_SIZE = 0 from Nat.div_eq_of_lt (by omega)]
    rfl
  | succ m ih =>
    intro a target h
    have hC := c.CHUNK_SIZE_pos
    by_cases hlt : a < target
    · rw [boundariesUp_cons, if_pos hlt, ih (a + c.CHUNK_SIZE) target (by omega)]
      have hK : (target - a + c.CHUNK_SIZE - 1) / c.CHUNK_SIZE =
          (target - (a + c.CHUNK_SIZE) + c.CHUNK_SIZE - 1) / c.CHUNK_SIZE + 1 := by
        by_cases hx : a + c.CHUNK_SIZE ≤ target
        · have h2 : target - a + c.CHUNK_SIZE - 1 =
              (target - (a + c.CHUNK_SIZE) + c.CHUNK_SIZE - 1) + c.CHUNK_SIZE := by omega
          rw [h2, Nat.add_div_right _ hC]
        · have h2 : target - (a + c.CHUNK_SIZE) = 0 := by omega
          rw [h2,
            show (0 + c.CHUNK_SIZE - 1) / c.CHUNK_SIZE = 0 from Nat.div_eq_of_lt (by omega)]
          refine Nat.div_eq_of_lt_le (by omega) ?_
          have h3 : (0 + 1 + 1) * c.CHUNK_SIZE = c.CHUNK_SIZE + c.CHUNK_SIZE := by ring
          omega
      rw [hK, List.range_succ_eq_map, List.map_cons, List.map_map]
      simp only [Nat.zero_mul, Nat.add_zero]
      refine congrArg _ (List.map_congr_left fun i hi => ?_)
      simp only [Function.comp_apply, Nat.succ_mul, Nat.add_mul, Nat.one_mul]
      omega
    · rw [boundariesUp_cons, if_neg hlt,
        show target - a = 0 by omega,
        show (0 + c.CHUNK_SIZE - 1) / c.CHUNK_SIZE = 0 from Nat.div_eq_of_lt (by omega)]
      rfl

theorem boundariesDownF_spec (c : Cfg) :
    ∀ k f a target, target + k * c.CHUNK_SIZE = a → k ≤ f →
      boundariesDownF c f a target =
        (List.range k).map (fun i => a - (i + 1) * c.CHUNK_SIZE) := by
  intro k
  induction k with
  | zero =>
    intro f a target ha _
    have hta : target = a := by omega
    cases f with
    | zero => rfl
    | succ f => simp [boundariesDownF, hta]
  | succ k ih =>
    intro f a target ha hf
    have hC := c.CHUNK_SIZE_pos
    rw [Nat.succ_mul] at ha
    match f, hf with
    | f + 1, _ =>
      have hne : target ≠ a := by omega
      simp only [boundariesDownF, if_pos hne]
      rw [ih f (a - c.CHUNK_SIZE) target (by omega) (by omega)]
      rw [List.range_succ_eq_map, List.map_cons, List.map_map]
      simp only [Nat.zero_add, Nat.one_mul]
      refine congrArg _ (List.map_congr_left fun i hi => ?_)
      simp only [Function.comp_apply, Nat.succ_mul, Nat.add_mul, Nat.one_mul]
      omega

theorem boundariesDown_spec (c : Cfg) (k a target : Nat)
    (ha : target + k * c.CHUNK_SIZE = a) :
    boundariesDown c a target =
      (List.range k).map (fun i => a - (i + 1) * c.CHUNK_SIZE) := by
  unfold boundariesDown
  refine boundariesDownF_spec c k (a - target) a target ha ?_
  have hC := c.CHUNK_SIZE_pos
  have hk := Nat.le_mul_of_pos_right k hC
  omega

theorem alignUp_dvd (c : Cfg) (p : Nat) : c.CHUNK_SIZE ∣ alignUp c p :=
  dvd_mul_left _ _

theorem le_alignUp (c : Cfg) (p : Nat) : p ≤ alignUp c p := by
  have hC := c.CHUNK_SIZE_pos
  have h := Nat.lt_div_mul_add (a := p + c.CHUNK_SIZE - 1) hC
  unfold alignUp
  omega

theorem alignUp_lt (c : Cfg) (p : Nat) : alignUp c p < p + c.CHUNK_SIZE := by
  have hC := c.CHUNK_SIZE_pos
  have h := Nat.div_mul_le_self (p + c.CHUNK_SIZE - 1) c.CHUNK_SIZE
  unfold alignUp
  omega

theorem alignUp_eq_of (c : Cfg) (p m : Nat) (hd : c.CHUNK_SIZE ∣ m)
    (h1 : p ≤ m) (h2 : m < p + c.CHUNK_SIZE) : alignUp c p = m := by
  obtain ⟨q, rfl⟩ := hd
  have hC := c.CHUNK_SIZE_pos
  rw [Nat.mul_comm c.CHUNK_SIZE q] at h1 h2 ⊢
  unfold alignUp
  have hdiv : (p + c.CHUNK_SIZE - 1) / c.CHUNK_SIZE = q := by
    refine Nat.div_eq_of_lt_le (by omega) ?_
    have h3 : (q + 1) * c.CHUNK_SIZE = q * c.CHUNK_SIZE + c.CHUNK_SIZE := by
      rw [Nat.add_mul, Nat.one_mul]
    omega
  rw [hdiv]

theorem alignUp_align_add (c : Cfg) (e n : Nat) :
    alignUp c (e + n) = alignUp c e +
      ((e + n - alignUp c e + c.CHUNK_SIZE - 1) / c.CHUNK_SIZE) * c.CHUNK_SIZE := by
  have hC := c.CHUNK_SIZE_pos
  by_cases h : e + n ≤ alignUp c e
  · have h0 : e + n - alignUp c e = 0 := by omega
    rw [h0,
      show (0 + c.CHUNK_SIZE - 1) / c.CHUNK_SIZE = 0 from Nat.div_eq_of_lt (by omega),
      Nat.zero_mul, Nat.add_zero]
    refine alignUp_eq_of c (e + n) _ (alignUp_dvd c e) h ?_
    have h2 := alignUp_lt c e
    omega
  · obtain ⟨q0, hq0⟩ := alignUp_dvd c e
    have h1 : e + n + c.CHUNK_SIZE - 1 =
        c.CHUNK_SIZE * q0 + (e + n - alignUp c e + c.CHUNK_SIZE - 1) := by omega
    have hL : alignUp c (e + n) =
        (e + n + c.CHUNK_SIZE - 1) / c.CHUNK_SIZE * c.CHUNK_SIZE := rfl
    rw [hL, h1, Nat.mul_add_div hC, Nat.add_mul, Nat.mul_comm q0, ← hq0]

theorem boundariesDown_eq_reverse_up (c : Cfg) (e n : Nat) :
    boundariesDown c (alignUp c (e + n)) (alignUp c e) =
      (boundariesUp c (alignUp c e) (e + n)).reverse := by
  have hC := c.CHUNK_SIZE_pos
  rw [boundariesUp_spec c (e + n - alignUp c e) _ _ (le_refl _),
    boundariesDown_spec c ((e + n - alignUp c e + c.CHUNK_SIZE - 1) / c.CHUNK_SIZE)
      _ _ (alignUp_align_add c e n).symm]
  apply List.ext_getElem
  · simp
  · intro i h1 h2
    have hiK : i < (e + n - alignUp c e + c.CHUNK_SIZE - 1) / c.CHUNK_SIZE := by
      simpa using h1
    simp only [List.getElem_reverse, List.getElem_map, List.getElem_range,
      List.length_map, List.length_range]
    rw [alignUp_align_add c e n]
    set K := (e + n - alignUp c e + c.CHUNK_SIZE - 1) / c.CHUNK_SIZE with hK
    have e1 : (K - 1 - i) * c.CHUNK_SIZE =
        K * c.CHUNK_SIZE - c.CHUNK_SIZE - i * c.CHUNK_SIZE := by
      rw [show K - 1 - i = K - 1 - i from rfl, Nat.sub_mul, Nat.sub_mul, Nat.one_mul]
    have e2 : (i + 1) * c.CHUNK_SIZE = i * c.CHUNK_SIZE + c.CHUNK_SIZE := by
      rw [Nat.add_mul, Nat.one_mul]
    have e3 : (i + 1) * c.CHUNK_SIZE ≤ K * c.CHUNK_SIZE :=
      Nat.mul_le_mul_right _ (by omega)
    omega

theorem unallocMidsGo_eq_allocMidsGo (c : Cfg) (b : Nat) :
    ∀ f h sc ov, unallocMidsGo c b f h sc ov = allocMidsGo c b f h sc ov := by
  intro f
  induction f with
  | zero => intro h sc ov; rfl
  | succ f ih =>
    intro h sc ov
    simp only [unallocMidsGo, allocMidsGo]
    rw [ih]

theorem boundaryFrees_eq_boundaryCreates (c : Cfg) (b : Nat) :
    boundaryFrees c b = boundaryCreates c b := by
  unfold boundaryFrees boundaryCreates unallocMids allocMids
  rw [unallocMidsGo_eq_allocMidsGo]

theorem reverse_flatMap_perm {α β : Type} (f : α → List β) :
    ∀ l : List α, (l.reverse.flatMap f).Perm (l.flatMap f) := by
  intro l
  induction l with
  | nil => exact List.Perm.refl _
  | cons a l ih =>
    rw [List.reverse_cons, List.flatMap_append, List.flatMap_cons]
    have h1 : (l.reverse.flatMap f ++ [a].flatMap f).Perm
        ([a].flatMap f ++ l.reverse.flatMap f) := List.perm_append_comm
    have h2 : ([a].flatMap f ++ l.reverse.flatMap f).Perm
        ([a].flatMap f ++ l.flatMap f) := List.Perm.append_left _ ih
    have h3 := h1.trans h2
    simp only [List.flatMap_cons, List.flatMap_nil, List.append_nil] at h3 ⊢
    exact h3

/-- unallocFrees after an alloc from end e by n: the release walk visits the
reverse boundary list of the creation walk and performs, at each boundary,
the same block set, so the released blocks are a permutation (the same
multiset) of the created blocks. -/
theorem unallocFrees_coe_eq_allocCreates (c : Cfg) (e n : Nat) :
    (↑(unallocFrees c (e + n) n) : Multiset NodeId) = ↑(allocCreates c e n) := by
  unfold unallocFrees allocCreates
  rw [Nat.add_sub_cancel]
  have hfun : boundaryFrees c = boundaryCreates c :=
    funext (boundaryFrees_eq_boundaryCreates c)
  rw [hfun, boundariesDown_eq_reverse_up c e n]
  exact Multiset.coe_eq_coe.mpr (reverse_flatMap_perm _ _)

/-- C4: for every valid configuration, every buffer state and every size n
passing the capacity check (with no pool-allocation failure, which the
model's alloc embeds), alloc n immediately followed by unalloc n restores
end to its pre-alloc value and releases back to the pool exactly the
multiset of nodes and chunks the alloc created, restoring the whole state. -/
theorem alloc_unalloc_roundtrip (c : Cfg) (hc : c.Valid) (s : St) (n : Nat)
    (hcap : s.bufEnd + n - alignDownSubtree c s.bufBegin ≤ c.CARDINALITY) :
    (alloc c s n).2 = some s.bufEnd ∧
    (unalloc c (alloc c s n).1 n).bufEnd = s.bufEnd ∧
    (↑(unallocFrees c (s.bufEnd + n) n) : Multiset NodeId) =
      ↑(allocCreates c s.bufEnd n) ∧
    unalloc c (alloc c s n).1 n = s := by
  have hif : ¬ c.CARDINALITY < s.bufEnd + n - alignDownSubtree c s.bufBegin := by omega
  unfold alloc
  rw [if_neg hif]
  refine ⟨rfl, by simp [unalloc], unallocFrees_coe_eq_allocCreates c s.bufEnd n, ?_⟩
  unfold unalloc
  simp only [Nat.add_sub_cancel]
  rw [unallocFrees_coe_eq_allocCreates c s.bufEnd n,
    add_tsub_cancel_right s.resident ↑(allocCreates c s.bufEnd n)]

/-- Witness for alloc_unalloc_roundtrip: configuration CHUNK_SIZE = 128,
MIDDLE_SIZE = 8, L0_SIZE = 4, HEIGHT = 3, state begin = 0, end = 37 with no
resident blocks tracked, n = 200. -/
theorem alloc_unalloc_roundtrip_witness :
    ((Cfg.mk 7 3 2 3).Valid ∧
      (37 : Nat) + 200 - alignDownSubtree ⟨7, 3, 2, 3⟩ 0 ≤
        (Cfg.mk 7 3 2 3).CARDINALITY) ∧
    ((alloc ⟨7, 3, 2, 3⟩ ⟨0, 37, 0⟩ 200).2 = some 37 ∧
      (unalloc ⟨7, 3, 2, 3⟩ (alloc ⟨7, 3, 2, 3⟩ ⟨0, 37, 0⟩ 200).1 200).bufEnd = 37 ∧
      (↑(unallocFrees ⟨7, 3, 2, 3⟩ (37 + 200) 200) : Multiset NodeId) =
        ↑(allocCreates ⟨7, 3, 2, 3⟩ 37 200) ∧
      unalloc ⟨7, 3, 2, 3⟩ (alloc ⟨7, 3, 2, 3⟩ ⟨0, 37, 0⟩ 200).1 200 = ⟨0, 37, 0⟩) :=
  ⟨⟨by decide, by decide⟩,
    alloc_unalloc_roundtrip ⟨7, 3, 2, 3⟩ (by decide) ⟨0, 37, 0⟩ 200 (by decide)⟩

/-- C5: with CHUNK_SIZE = 128, L0_SIZE = 4, HEIGHT = 3 (so MIDDLE_SIZE =
128 / sizeof(Link) = 8), alloc 1024 on the empty buffer returns offset 0,
creates exactly 1024 / 128 = 8 leaf chunks and exactly one interior node —
the minimum, since at height 3 leaf chunks hang below interior nodes of
fan-out MIDDLE_SIZE, so any k interior nodes addressing 8 chunks need
8 <= k * MIDDLE_SIZE, forcing k >= 1 — and a subsequent unalloc 1024
releases every one of those blocks, returning the buffer to zero resident
blocks. -/
theorem alloc1024_scenario :
    (alloc ⟨7, 3, 2, 3⟩ ⟨0, 0, 0⟩ 1024).2 = some 0 ∧
    ((allocCreates ⟨7, 3, 2, 3⟩ 0 1024).filter
        (fun x => x.1 = (Cfg.mk 7 3 2 3).height - 1)).length = 8 ∧
    ((allocCreates ⟨7, 3, 2, 3⟩ 0 1024).filter
        (fun x => x.1 ≠ (Cfg.mk 7 3 2 3).height - 1)).length = 1 ∧
    (∀ k : Nat, 8 ≤ k * (Cfg.mk 7 3 2 3).MIDDLE_SIZE → 1 ≤ k) ∧
    unalloc ⟨7, 3, 2, 3⟩ (alloc ⟨7, 3, 2, 3⟩ ⟨0, 0, 0⟩ 1024).1 1024 = ⟨0, 0, 0⟩ := by
  refine ⟨by decide, by decide, by decide, ?_, by decide⟩
  intro k hk
  have hm : (Cfg.mk 7 3 2 3).MIDDLE_SIZE = 8 := rfl
  rw [hm] at hk
  omega

theorem unallocMidsGo_spec (c : Cfg) (b : Nat) :
    ∀ f h, unallocMidsGo c b f h (2 ^ (c.cLog + f * c.mLog))
        (b % 2 ^ (c.cLog + f * c.mLog)) =
      (List.range f).filterMap (fun j =>
        if b % 2 ^ (c.cLog + (f - j) * c.mLog) = 0 then
          some (h + 1 + j, b / 2 ^ (c.cLog + (f - j) * c.mLog))
        else none) := by
  intro f
  induction f with
  | zero => intro h; rfl
  | succ f ih =>
    intro h
    have hdiv : 2 ^ (c.cLog + (f + 1) * c.mLog) / c.MIDDLE_SIZE =
        2 ^ (c.cLog + f * c.mLog) := pow_succ_div_pow c.cLog f c.mLog
    have hfac : 2 ^ (c.cLog + (f + 1) * c.mLog) =
        2 ^ (c.cLog + f * c.mLog) * 2 ^ c.mLog := by
      rw [← Nat.pow_add]; ring_nf
    have hdvd : (2 ^ (c.cLog + f * c.mLog) : Nat) ∣ 2 ^ (c.cLog + (f + 1) * c.mLog) :=
      ⟨2 ^ c.mLog, hfac⟩
    have htail : (List.range f).filterMap
        (fun j => if b % 2 ^ (c.cLog + (f - j) * c.mLog) = 0 then
          some (h + 1 + 1 + j, b / 2 ^ (c.cLog + (f - j) * c.mLog)) else none) =
      (List.range f).filterMap
        ((fun j => if b % 2 ^ (c.cLog + (f + 1 - j) * c.mLog) = 0 then
          some (h + 1 + j, b / 2 ^ (c.cLog + (f + 1 - j) * c.mLog)) else none) ∘
            Nat.succ) := by
      refine List.filterMap_congr fun j hj => ?_
      simp only [Function.comp_apply]
      have ec : f + 1 - Nat.succ j = f - j := by omega
      have ev : h + 1 + Nat.succ j = h + 1 + 1 + j := by omega
      rw [ec, ev]
    simp only [unallocMidsGo]
    rw [hdiv, Nat.mod_mod_of_dvd b hdvd, ih (h + 1), List.range_succ_eq_map]
    by_cases hz : b % 2 ^ (c.cLog + (f + 1) * c.mLog) = 0
    · rw [if_pos hz, List.singleton_append,
        List.filterMap_cons_some (b := (h + 1 + 0, b / 2 ^ (c.cLog + (f + 1 - 0) * c.mLog)))
          (by rw [if_pos (by simpa using hz)]), List.filterMap_map, htail]
      simp only [Nat.sub_zero, Nat.add_zero]
    · rw [if_neg hz, List.nil_append,
        List.filterMap_cons_none (by rw [if_neg (by simpa using hz)]),
        List.filterMap_map, htail]

theorem unallocMids_spec (c : Cfg) (b : Nat) :
    unallocMids c b = (List.range (c.height - 2)).filterMap (fun j =>
      if b % nodeSpan c (j + 1) = 0 then some (j + 1, b / nodeSpan c (j + 1))
      else none) := by
  unfold unallocMids
  rw [c.SUBTREE_CARDINALITY_eq_pow, unallocMidsGo_spec c b (c.height - 2) 0]
  refine List.filterMap_congr fun j hj => ?_
  simp only [nodeSpan]
  have ec : c.height - 2 - j = c.height - 1 - (j + 1) := by omega
  have ev : (0 : Nat) + 1 + j = j + 1 := by omega
  rw [ec, ev]

/-- isAncestor c x y: block x lies on a strictly higher tree level than y and
y's covered range starts inside x's covered range. -/
def isAncestor (c : Cfg) (x y : NodeId) : Prop :=
  x.1 < y.1 ∧ x.2 = y.2 * nodeSpan c y.1 / nodeSpan c x.1

instance (c : Cfg) (x y : NodeId) : Decidable (isAncestor c x y) := by
  unfold isAncestor; infer_instance

/-- bottomUpOrder is the release discipline asserted by claim C6: a block is
released only after every one of its released strict descendants (bottom-up,
leaf before its ancestors), i.e. no block in the list precedes a strict
descendant of itself. -/
def bottomUpOrder (c : Cfg) (l : List NodeId) : Prop :=
  ∀ i j : Fin l.length, i < j → ¬ isAncestor c (l.get i) (l.get j)

instance (c : Cfg) (l : List NodeId) : Decidable (bottomUpOrder c l) := by
  unfold bottomUpOrder; infer_instance

/-- C6 counterexample: with CHUNK_SIZE = 128, MIDDLE_SIZE = 8, L0_SIZE = 4,
HEIGHT = 3 and 1024 bytes allocated at offsets [0, 1024), unalloc 1024
releases the interior node (1, 0) before its child leaf chunk (2, 0): the
walk of lines 196-205 frees the saved interior node while descending and
frees the leaf chunk last, so the bottom-up (leaf before its ancestors)
release order asserted by the claim fails. -/
theorem unalloc_not_bottom_up :
    ¬ bottomUpOrder ⟨7, 3, 2, 3⟩ (unallocFrees ⟨7, 3, 2, 3⟩ 1024 1024) := by
  decide

/-- C6 amended: for size <= end - begin, unalloc leaves begin unchanged,
updates end to end - size, and releases, at every CHUNK_SIZE boundary from
the old allocated end down to the new allocated end, exactly the leaf chunk
at that boundary together with those interior nodes whose covered range
starts at that boundary (i.e. whose last remaining child region is retired
at that boundary) — but in top-down order within the boundary: each interior
node is released before its descendants, the leaf chunk last, not leaf-first
as the claim states. -/
theorem unalloc_release_characterization (c : Cfg) (hc : c.Valid) (s : St)
    (n : Nat) (hn : n ≤ s.bufEnd - s.bufBegin) (hbe : s.bufBegin ≤ s.bufEnd) :
    (unalloc c s n).bufBegin = s.bufBegin ∧
    (unalloc c s n).bufEnd = s.bufEnd - n ∧
    unallocFrees c s.bufEnd n =
      (boundariesDown c (alignUp c s.bufEnd) (alignUp c (s.bufEnd - n))).flatMap
        (fun b =>
          (List.range (c.height - 2)).filterMap (fun j =>
            if b % nodeSpan c (j + 1) = 0 then
              some (j + 1, b / nodeSpan c (j + 1))
            else none) ++ [(c.height - 1, b / c.CHUNK_SIZE)]) := by
  refine ⟨rfl, rfl, ?_⟩
  unfold unallocFrees
  refine congrArg _ (funext fun b => ?_)
  unfold boundaryFrees
  rw [unallocMids_spec]

/-- Witness for unalloc_release_characterization: configuration
CHUNK_SIZE = 128, MIDDLE_SIZE = 8, L0_SIZE = 4, HEIGHT = 3, begin = 0,
end = 1024, size = 1024. -/
theorem unalloc_release_characterization_witness :
    ((Cfg.mk 7 3 2 3).Valid ∧ (1024 : Nat) ≤ 1024 - 0 ∧ (0 : Nat) ≤ 1024) ∧
    ((unalloc ⟨7, 3, 2, 3⟩ ⟨0, 1024, 0⟩ 1024).bufBegin = 0 ∧
      (unalloc ⟨7, 3, 2, 3⟩ ⟨0, 1024, 0⟩ 1024).bufEnd = 1024 - 1024 ∧
      unallocFrees ⟨7, 3, 2, 3⟩ 1024 1024 =
        (boundariesDown ⟨7, 3, 2, 3⟩ (alignUp ⟨7, 3, 2, 3⟩ 1024)
            (alignUp ⟨7, 3, 2, 3⟩ (1024 - 1024))).flatMap
          (fun b =>
            (List.range ((Cfg.mk 7 3 2 3).height - 2)).filterMap (fun j =>
              if b % nodeSpan ⟨7, 3, 2, 3⟩ (j + 1) = 0 then
                some (j + 1, b / nodeSpan ⟨7, 3, 2, 3⟩ (j + 1))
              else none) ++
            [((Cfg.mk 7 3 2 3).height - 1, b / (Cfg.mk 7 3 2 3).CHUNK_SIZE)])) :=
  ⟨⟨by decide, by decide, by decide⟩,
    unalloc_release_characterization ⟨7, 3, 2, 3⟩ (by decide) ⟨0, 1024, 0⟩ 1024
      (by decide) (by decide)⟩

/-- RollbackEnd tells how the catch-block walk of alloc terminates: rethrow
is the throw at line 162 or 170 (a nullptr marker reached), assertFalse is
falling out of the while loop into the assert(false) at line 175, which the
source comments with "unreachable". -/
inductive RollbackEnd
  | rethrow
  | assertFalse
  deriving DecidableEq

/-- rollbackGo models the per-boundary walk of alloc's catch block
(lines 154-171) at boundary b, descending with loop state (h, sc, ov) like
the forward walk.  Where ov = 0 it examines the cell hanging the level h + 1
node: if that cell is failCell — the cell into which the forward pass wrote
nullptr just before its pool allocation failed (lines 137-138 or 145-146) —
the walk rethrows (line 162); otherwise it frees that node (line 163) and
descends through it (the freed node's contents are still intact, nothing
reused them).  After the loop the leaf cell is checked the same way
(line 169) and the data chunk freed (line 171).  Cells reached with ov not 0
are materialized tree cells in the scenarios considered, so their pointers
are followed without a check, as in the source.  Returns the freed blocks in
order, paired with true when a nullptr was hit. -/
def rollbackGo (c : Cfg) (failCell : NodeId) (b : Nat) :
    Nat → Nat → Nat → Nat → List NodeId × Bool
  | 0, _, _, _ =>
    if failCell = (c.height - 1, b / c.CHUNK_SIZE) then ([], true)
    else ([(c.height - 1, b / c.CHUNK_SIZE)], false)
  | fuel + 1, h, sc, ov =>
    if ov = 0 then
      if failCell = (h + 1, b / sc) then ([], true)
      else
        ((h + 1, b / sc) ::
            (rollbackGo c failCell b fuel (h + 1) (sc / c.MIDDLE_SIZE)
              (ov % (sc / c.MIDDLE_SIZE))).1,
          (rollbackGo c failCell b fuel (h + 1) (sc / c.MIDDLE_SIZE)
            (ov % (sc / c.MIDDLE_SIZE))).2)
    else
      rollbackGo c failCell b fuel (h + 1) (sc / c.MIDDLE_SIZE)
        (ov % (sc / c.MIDDLE_SIZE))

/-- rollbackLoop models the while loop of alloc's catch block
(lines 151-173), with the size_t wraparound of the sAllocatedEnd update
"sAllocatedEnd -= CHUNK_SIZE" at line 172 made explicit:
the next a is (a + 2 ^ 64 - CHUNK_SIZE) mod 2 ^ 64.  When the loop guard
a < sNewEnd fails, control reaches the assert(false) at line 175.  fuel
bounds the iterations; 2 ^ 64 covers every terminating size_t execution
since each iteration visits a fresh value of a. -/
def rollbackLoop (c : Cfg) (failCell : NodeId) (newEnd : Nat) :
    Nat → Nat → List NodeId × RollbackEnd
  | 0, _ => ([], RollbackEnd.assertFalse)
  | fuel + 1, a =>
    if a < newEnd then
      if (rollbackGo c failCell a (c.height - 2) 0 c.SUBTREE_CARDINALITY
          (a % c.SUBTREE_CARDINALITY)).2 then
        ((rollbackGo c failCell a (c.height - 2) 0 c.SUBTREE_CARDINALITY
            (a % c.SUBTREE_CARDINALITY)).1,
          RollbackEnd.rethrow)
      else
        ((rollbackGo c failCell a (c.height - 2) 0 c.SUBTREE_CARDINALITY
              (a % c.SUBTREE_CARDINALITY)).1 ++
            (rollbackLoop c failCell newEnd fuel
              ((a + (2 ^ 64 - c.CHUNK_SIZE)) % 2 ^ 64)).1,
          (rollbackLoop c failCell newEnd fuel
            ((a + (2 ^ 64 - c.CHUNK_SIZE)) % 2 ^ 64)).2)
    else ([], RollbackEnd.assertFalse)

/-- rollback: the whole catch block of alloc (lines 150-177), started like
line 151 from sAllocatedEnd = alignUp m_End, with sNewEnd = m_End + aSize. -/
def rollback (c : Cfg) (failCell : NodeId) (e newEnd : Nat) :
    List NodeId × RollbackEnd :=
  rollbackLoop c failCell newEnd (2 ^ 64) (alignUp c e)

/-- C3 is a code bug, witnessed here: configuration CHUNK_SIZE = 128,
MIDDLE_SIZE = 8, L0_SIZE = 4, HEIGHT = 3; prior state begin = 0, end = 128
(the chunk (2, 0) and its interior node (1, 0) resident); call alloc 256, in
which the pool succeeds for the chunk (2, 1) at boundary 128 (the first
pool allocation of the call) and fails at boundary 256 (failCell (2, 2)).
The claim and spec require the rollback to walk boundaries 128, 256 forward
and release exactly this call's creations — the chunk (2, 1) — leaving the
rest alone.  Because line 172 decrements sAllocatedEnd instead of advancing
it, the modeled catch block releases (2, 1), then walks DOWN to boundary 0
and releases the pre-existing (1, 0) and (2, 0), then wraps sAllocatedEnd
around 2 ^ 64 and falls out of the loop into the assert(false) that the
source itself marks unreachable. -/
theorem alloc_rollback_bug :
    (allocCreates ⟨7, 3, 2, 3⟩ 128 256).take 1 = [(2, 1)] ∧
    rollback ⟨7, 3, 2, 3⟩ (2, 2) 128 384 =
      ([(2, 1), (1, 0), (2, 0)], RollbackEnd.assertFalse) ∧
    (1, 0) ∉ (allocCreates ⟨7, 3, 2, 3⟩ 128 256).take 1 ∧
    (2, 0) ∉ (allocCreates ⟨7, 3, 2, 3⟩ 128 256).take 1 := by
  exact ⟨by decide, by decide, by decide, by decide⟩

/-- sPathIndices: the indices into the local array sPath — declared with
HEIGHT - 1 entries at line 216 of free — that the body of free reads or
writes: line 217 writes index 0; the loop of lines 218-219 reads h - 1 and
writes h for every h in [1, HEIGHT - 2]; lines 221, 222 and 225 use index
HEIGHT - 1. -/
def sPathIndices (c : Cfg) : List Nat :=
  [0] ++ (List.range' 1 (c.height - 2)).flatMap (fun h => [h - 1, h]) ++
    [c.height - 1, c.height - 1, c.height - 1]

/-- C10 is a code bug, witnessed at the configuration with HEIGHT = 3: free
declares sPath with HEIGHT - 1 = 2 entries (valid indices 0 and 1 =
HEIGHT - 2), yet lines 221, 222 and 225 read and write sPath[HEIGHT - 1] =
sPath[2], one past the end — the claim that every used index lies in
[0, HEIGHT - 2] fails on the code. -/
theorem free_path_index_out_of_bounds :
    (Cfg.mk 7 3 2 3).height - 1 ∈ sPathIndices ⟨7, 3, 2, 3⟩ ∧
    ¬ (∀ i ∈ sPathIndices ⟨7, 3, 2, 3⟩, i ≤ (Cfg.mk 7 3 2 3).height - 2) :=
  ⟨by decide, by decide⟩

/-- overlapBytes: the number of bytes of [pos, pos + len) that fall in leaf
chunk k, whose range is [k * CHUNK_SIZE, (k + 1) * CHUNK_SIZE). -/
def overlapBytes (c : Cfg) (pos len k : Nat) : Nat :=
  min (pos + len) ((k + 1) * c.CHUNK_SIZE) - max pos (k * c.CHUNK_SIZE)

/-- freeLoop models the do/while loop of free (lines 213-240), with the leaf
cell read at path index HEIGHT - 2 — the last cell the path-filling loop of
lines 217-219 sets, whose data pointer is the chunk covering aPos; the
sPath[HEIGHT - 1] access of the source is the off-by-one recorded as the
code bug of C10, so this definition models the free that the surrounding
code constructs.  sizes maps each chunk index to the live-byte counter held
in its leaf cell (the size field, set to CHUNK_SIZE at line 147); the
counter decrement of line 221 is uintptr_t arithmetic, embedded as addition
of 2 ^ 64 - sSizeInBlock modulo 2 ^ 64.  The returned list collects the
chunks whose counter reached 0 and were returned to the pool (lines
223-226), in order.  fuel bounds the iterations; aSize + 1 always suffices
because every iteration strictly decreases aSize while it is nonzero. -/
def freeLoop (c : Cfg) : Nat → (Nat → Nat) → Nat → Nat → (Nat → Nat) × List NodeId
  | 0, sizes, _, _ => (sizes, [])
  | fuel + 1, sizes, aPos, aSize =>
    let sSizeInBlock := min aSize (c.CHUNK_SIZE - aPos % c.CHUNK_SIZE)
    let k := aPos / c.CHUNK_SIZE
    let sLeft := (sizes k + (2 ^ 64 - sSizeInBlock)) % 2 ^ 64
    let sizes1 : Nat → Nat := fun j => if j = k then sLeft else sizes j
    let freed := if sLeft = 0 then [(c.height - 1, k)] else []
    if aSize - sSizeInBlock = 0 then (sizes1, freed)
    else
      ((freeLoop c fuel sizes1 (aPos + sSizeInBlock) (aSize - sSizeInBlock)).1,
        freed ++ (freeLoop c fuel sizes1 (aPos + sSizeInBlock) (aSize - sSizeInBlock)).2)

/-- free (lines 210-241) with the intended leaf-cell index (see freeLoop). -/
def freeIntended (c : Cfg) (sizes : Nat → Nat) (aPos aSize : Nat) :
    (Nat → Nat) × List NodeId :=
  freeLoop c (aSize + 1) sizes aPos aSize

theorem wrapSub_eq (x y : Nat) (hy : y ≤ x) (hx : x < 2 ^ 64) :
    (x + (2 ^ 64 - y)) % 2 ^ 64 = x - y := by
  have h1 : x + (2 ^ 64 - y) = (x - y) + 2 ^ 64 := by omega
  rw [h1, Nat.add_mod_right]
  exact Nat.mod_eq_of_lt (by omega)

theorem overlapBytes_le_chunk (c : Cfg) (pos len k : Nat) :
    overlapBytes c pos len k ≤ c.CHUNK_SIZE := by
  unfold overlapBytes
  have hmul : (k + 1) * c.CHUNK_SIZE = k * c.CHUNK_SIZE + c.CHUNK_SIZE := by
    rw [Nat.add_mul, Nat.one_mul]
  omega

theorem overlapBytes_self (c : Cfg) (pos len : Nat) :
    overlapBytes c pos len (pos / c.CHUNK_SIZE) =
      min len (c.CHUNK_SIZE - pos % c.CHUNK_SIZE) := by
  have hC := c.CHUNK_SIZE_pos
  have hdm := Nat.div_add_mod pos c.CHUNK_SIZE
  have hr := Nat.mod_lt pos hC
  unfold overlapBytes
  have hmul : (pos / c.CHUNK_SIZE + 1) * c.CHUNK_SIZE =
      pos / c.CHUNK_SIZE * c.CHUNK_SIZE + c.CHUNK_SIZE := by
    rw [Nat.add_mul, Nat.one_mul]
  have hcm : c.CHUNK_SIZE * (pos / c.CHUNK_SIZE) =
      pos / c.CHUNK_SIZE * c.CHUNK_SIZE := Nat.mul_comm _ _
  omega

theorem overlapBytes_other_stop (c : Cfg) (pos len k : Nat)
    (hin : len ≤ c.CHUNK_SIZE - pos % c.CHUNK_SIZE) (hk : k ≠ pos / c.CHUNK_SIZE) :
    overlapBytes c pos len k = 0 := by
  have hC := c.CHUNK_SIZE_pos
  have hdm := Nat.div_add_mod pos c.CHUNK_SIZE
  have hr := Nat.mod_lt pos hC
  unfold overlapBytes
  have hcm : c.CHUNK_SIZE * (pos / c.CHUNK_SIZE) =
      pos / c.CHUNK_SIZE * c.CHUNK_SIZE := Nat.mul_comm _ _
  rcases Nat.lt_or_ge k (pos / c.CHUNK_SIZE) with hlt | hge
  · have h1 : (k + 1) * c.CHUNK_SIZE ≤ pos / c.CHUNK_SIZE * c.CHUNK_SIZE :=
      Nat.mul_le_mul_right _ (by omega)
    have h2 : k * c.CHUNK_SIZE ≤ (k + 1) * c.CHUNK_SIZE :=
      Nat.mul_le_mul_right _ (by omega)
    omega
  · have hgt : pos / c.CHUNK_SIZE < k := by omega
    have h1 : (pos / c.CHUNK_SIZE + 1) * c.CHUNK_SIZE ≤ k * c.CHUNK_SIZE :=
      Nat.mul_le_mul_right _ (by omega)
    have hmul : (pos / c.CHUNK_SIZE + 1) * c.CHUNK_SIZE =
        pos / c.CHUNK_SIZE * c.CHUNK_SIZE + c.CHUNK_SIZE := by
      rw [Nat.add_mul, Nat.one_mul]
    omega

theorem overlapBytes_other_cont (c : Cfg) (pos len k : Nat)
    (hs : c.CHUNK_SIZE - pos % c.CHUNK_SIZE < len) (hk : k ≠ pos / c.CHUNK_SIZE) :
    overlapBytes c (pos + (c.CHUNK_SIZE - pos % c.CHUNK_SIZE))
        (len - (c.CHUNK_SIZE - pos % c.CHUNK_SIZE)) k = overlapBytes c pos len k := by
  have hC := c.CHUNK_SIZE_pos
  have hdm := Nat.div_add_mod pos c.CHUNK_SIZE
  have hr := Nat.mod_lt pos hC
  unfold overlapBytes
  have hcm : c.CHUNK_SIZE * (pos / c.CHUNK_SIZE) =
      pos / c.CHUNK_SIZE * c.CHUNK_SIZE := Nat.mul_comm _ _
  have hmul : (pos / c.CHUNK_SIZE + 1) * c.CHUNK_SIZE =
      pos / c.CHUNK_SIZE * c.CHUNK_SIZE + c.CHUNK_SIZE := by
    rw [Nat.add_mul, Nat.one_mul]
  rcases Nat.lt_or_ge k (pos / c.CHUNK_SIZE) with hlt | hge
  · have h1 : (k + 1) * c.CHUNK_SIZE ≤ pos / c.CHUNK_SIZE * c.CHUNK_SIZE :=
      Nat.mul_le_mul_right _ (by omega)
    have h2 : k * c.CHUNK_SIZE ≤ (k + 1) * c.CHUNK_SIZE :=
      Nat.mul_le_mul_right _ (by omega)
    omega
  · have hgt : pos / c.CHUNK_SIZE < k := by omega
    have h1 : (pos / c.CHUNK_SIZE + 1) * c.CHUNK_SIZE ≤ k * c.CHUNK_SIZE :=
      Nat.mul_le_mul_right _ (by omega)
    omega

theorem overlapBytes_self_cont (c : Cfg) (pos len : Nat)
    (hs : c.CHUNK_SIZE - pos % c.CHUNK_SIZE < len) :
    overlapBytes c (pos + (c.CHUNK_SIZE - pos % c.CHUNK_SIZE))
        (len - (c.CHUNK_SIZE - pos % c.CHUNK_SIZE)) (pos / c.CHUNK_SIZE) = 0 := by
  have hC := c.CHUNK_SIZE_pos
  have hdm := Nat.div_add_mod pos c.CHUNK_SIZE
  have hr := Nat.mod_lt pos hC
  unfold overlapBytes
  have hcm : c.CHUNK_SIZE * (pos / c.CHUNK_SIZE) =
      pos / c.CHUNK_SIZE * c.CHUNK_SIZE := Nat.mul_comm _ _
  have hmul : (pos / c.CHUNK_SIZE + 1) * c.CHUNK_SIZE =
      pos / c.CHUNK_SIZE * c.CHUNK_SIZE + c.CHUNK_SIZE := by
    rw [Nat.add_mul, Nat.one_mul]
  omega

theorem pos_add_block_div (c : Cfg) (pos : Nat) :
    (pos + (c.CHUNK_SIZE - pos % c.CHUNK_SIZE)) / c.CHUNK_SIZE =
      pos / c.CHUNK_SIZE + 1 := by
  have hC := c.CHUNK_SIZE_pos
  have hdm := Nat.div_add_mod pos c.CHUNK_SIZE
  have hr := Nat.mod_lt pos hC
  have hcm : c.CHUNK_SIZE * (pos / c.CHUNK_SIZE) =
      pos / c.CHUNK_SIZE * c.CHUNK_SIZE := Nat.mul_comm _ _
  have hmul : (pos / c.CHUNK_SIZE + 1) * c.CHUNK_SIZE =
      pos / c.CHUNK_SIZE * c.CHUNK_SIZE + c.CHUNK_SIZE := by
    rw [Nat.add_mul, Nat.one_mul]
  have hpe : pos + (c.CHUNK_SIZE - pos % c.CHUNK_SIZE) =
      (pos / c.CHUNK_SIZE + 1) * c.CHUNK_SIZE := by omega
  rw [hpe, Nat.mul_div_cancel _ hC]

theorem freeLoop_spec (c : Cfg) :
    ∀ fuel sizes pos len, 1 ≤ len → len ≤ fuel →
      (∀ k, overlapBytes c pos len k ≤ sizes k) →
      (∀ k, sizes k < 2 ^ 64) →
      (∀ k, (freeLoop c fuel sizes pos len).1 k =
        sizes k - overlapBytes c pos len k) ∧
      (∀ x ∈ (freeLoop c fuel sizes pos len).2, x.1 = c.height - 1) ∧
      (∀ k, (c.height - 1, k) ∈ (freeLoop c fuel sizes pos len).2 ↔
        overlapBytes c pos len k ≠ 0 ∧ sizes k = overlapBytes c pos len k) := by
  intro fuel
  induction fuel with
  | zero => intro sizes pos len h1 h2 _ _; exact (by omega : False).elim
  | succ fuel ih =>
    intro sizes pos len hlen hfuel hsz hub
    have hC := c.CHUNK_SIZE_pos
    have hrlt := Nat.mod_lt pos hC
    set s := min len (c.CHUNK_SIZE - pos % c.CHUNK_SIZE) with hs_def
    set k0 := pos / c.CHUNK_SIZE with hk0_def
    set L := (sizes k0 + (2 ^ 64 - s)) % 2 ^ 64 with hL_def
    set sizes1 : Nat → Nat := fun j => if j = k0 then L else sizes j with hsizes1_def
    set freed := if L = 0 then [(c.height - 1, k0)] else [] with hfreed_def
    have hstep : freeLoop c (fuel + 1) sizes pos len =
        if len - s = 0 then (sizes1, freed)
        else ((freeLoop c fuel sizes1 (pos + s) (len - s)).1,
          freed ++ (freeLoop c fuel sizes1 (pos + s) (len - s)).2) := rfl
    have hs1 : 1 ≤ s := by omega
    have hself : overlapBytes c pos len k0 = s := overlapBytes_self c pos len
    have hsk0 : s ≤ sizes k0 := hself ▸ hsz k0
    have hwrap : L = sizes k0 - s := wrapSub_eq _ _ hsk0 (hub k0)
    have hs1k : ∀ j, sizes1 j = if j = k0 then L else sizes j := fun j => rfl
    have hfreedmem : ∀ k, (c.height - 1, k) ∈ freed ↔ k = k0 ∧ L = 0 := by
      intro k
      rw [hfreed_def]
      by_cases hz : L = 0
      · rw [if_pos hz]
        constructor
        · intro hmem
          exact ⟨congrArg Prod.snd (List.mem_singleton.mp hmem), hz⟩
        · intro hcond
          rw [hcond.1]
          exact List.mem_singleton.mpr rfl
      · rw [if_neg hz]
        constructor
        · intro hmem
          exact absurd hmem (List.not_mem_nil _)
        · intro hcond
          exact absurd hcond.2 hz
    have hfreedlvl : ∀ x ∈ freed, x.1 = c.height - 1 := by
      intro x hx
      rw [hfreed_def] at hx
      by_cases hz : L = 0
      · rw [if_pos hz] at hx
        rcases List.mem_singleton.mp hx with rfl
        rfl
      · rw [if_neg hz] at hx
        exact absurd hx (List.not_mem_nil _)
    rw [hstep]
    by_cases hstop : len - s = 0
    · rw [if_pos hstop]
      have hin : len ≤ c.CHUNK_SIZE - pos % c.CHUNK_SIZE := by omega
      refine ⟨?_, hfreedlvl, ?_⟩
      · intro k
        show sizes1 k = sizes k - overlapBytes c pos len k
        rw [hs1k k]
        by_cases hk : k = k0
        · rw [if_pos hk, hk, hwrap, hself]
        · rw [if_neg hk, overlapBytes_other_stop c pos len k hin hk, Nat.sub_zero]
      · intro k
        show (c.height - 1, k) ∈ freed ↔ _
        rw [hfreedmem k]
        by_cases hk : k = k0
        · rw [hk, hself, hwrap]
          constructor
          · intro hcond
            exact ⟨by omega, by omega⟩
          · intro hcond
            exact ⟨rfl, by omega⟩
        · rw [overlapBytes_other_stop c pos len k hin hk]
          constructor
          · intro hcond
            exact absurd hcond.1 hk
          · intro hcond
            exact absurd rfl hcond.1
    · rw [if_neg hstop]
      have hcont : c.CHUNK_SIZE - pos % c.CHUNK_SIZE < len := by omega
      have hscr : s = c.CHUNK_SIZE - pos % c.CHUNK_SIZE := by omega
      have hov1 : ∀ k, overlapBytes c (pos + s) (len - s) k =
          if k = k0 then 0 else overlapBytes c pos len k := by
        intro k
        by_cases hk : k = k0
        · rw [if_pos hk, hk, hscr]
          exact overlapBytes_self_cont c pos len hcont
        · rw [if_neg hk, hscr]
          exact overlapBytes_other_cont c pos len k hcont hk
      have hub1 : ∀ k, sizes1 k < 2 ^ 64 := by
        intro k
        rw [hs1k k]
        by_cases hk : k = k0
        · rw [if_pos hk, hwrap]
          omega
        · rw [if_neg hk]
          exact hub k
      have hsz1 : ∀ k, overlapBytes c (pos + s) (len - s) k ≤ sizes1 k := by
        intro k
        rw [hov1 k, hs1k k]
        by_cases hk : k = k0
        · rw [if_pos hk, if_pos hk]
          omega
        · rw [if_neg hk, if_neg hk]
          exact hsz k
      obtain ⟨iha, ihb, ihc⟩ :=
        ih sizes1 (pos + s) (len - s) (by omega) (by omega) hsz1 hub1
      refine ⟨?_, ?_, ?_⟩
      · intro k
        show (freeLoop c fuel sizes1 (pos + s) (len - s)).1 k =
          sizes k - overlapBytes c pos len k
        rw [iha k, hov1 k, hs1k k]
        by_cases hk : k = k0
        · rw [if_pos hk, if_pos hk, hk, hwrap, hself, Nat.sub_zero]
        · rw [if_neg hk, if_neg hk]
      · intro x hx
        rcases List.mem_append.mp hx with hx1 | hx2
        · exact hfreedlvl x hx1
        · exact ihb x hx2
      · intro k
        show (c.height - 1, k) ∈
          freed ++ (freeLoop c fuel sizes1 (pos + s) (len - s)).2 ↔ _
        rw [List.mem_append, ihc k, hov1 k, hfreedmem k, hs1k k]
        by_cases hk : k = k0
        · rw [if_pos hk, if_pos hk, hk, hself, hwrap]
          constructor
          · intro hmem
            rcases hmem with hm1 | hm2
            · exact ⟨by omega, by omega⟩
            · exact absurd rfl hm2.1
          · intro hcond
            exact Or.inl ⟨rfl, by omega⟩
        · rw [if_neg hk, if_neg hk]
          constructor
          · intro hmem
            rcases hmem with hm1 | hm2
            · exact absurd hm1.1 hk
            · exact hm2
          · intro hcond
            exact Or.inr hcond

/-- C7 holds for the free that the surrounding code constructs (the path
loop fills sPath up to index HEIGHT - 2 with the leaf cell last; the
sPath[HEIGHT - 1] read of lines 221-225 is the off-by-one bug recorded under
C10): every leaf chunk overlapped by [pos, pos + len) has its live-byte
counter decremented by exactly the bytes of the range falling in that chunk,
a chunk is returned to the pool exactly when its counter reaches zero, and
free never releases an interior node (every released block is at leaf level
HEIGHT - 1). -/
theorem free_intended_spec (c : Cfg) (sizes : Nat → Nat) (pos len : Nat)
    (hlen : 1 ≤ len)
    (hsz : ∀ k, overlapBytes c pos len k ≤ sizes k)
    (hub : ∀ k, sizes k < 2 ^ 64) :
    (∀ k, (freeIntended c sizes pos len).1 k =
      sizes k - overlapBytes c pos len k) ∧
    (∀ x ∈ (freeIntended c sizes pos len).2, x.1 = c.height - 1) ∧
    (∀ k, (c.height - 1, k) ∈ (freeIntended c sizes pos len).2 ↔
      overlapBytes c pos len k ≠ 0 ∧ sizes k = overlapBytes c pos len k) :=
  freeLoop_spec c (len + 1) sizes pos len hlen (by omega) hsz hub

/-- Witness for free_intended_spec: CHUNK_SIZE = 128, HEIGHT = 3, all
counters at 128, freeing [0, 192): chunk 0 is fully covered and released,
chunk 1 keeps 64 live bytes. -/
theorem free_intended_spec_witness :
    ((1 : Nat) ≤ 192 ∧
      (∀ k, overlapBytes ⟨7, 3, 2, 3⟩ 0 192 k ≤ 128) ∧
      (∀ _k : Nat, (128 : Nat) < 2 ^ 64)) ∧
    ((∀ k, (freeIntended ⟨7, 3, 2, 3⟩ (fun _ => 128) 0 192).1 k =
        128 - overlapBytes ⟨7, 3, 2, 3⟩ 0 192 k) ∧
      (∀ x ∈ (freeIntended ⟨7, 3, 2, 3⟩ (fun _ => 128) 0 192).2,
        x.1 = (Cfg.mk 7 3 2 3).height - 1) ∧
      (∀ k, ((Cfg.mk 7 3 2 3).height - 1, k) ∈
          (freeIntended ⟨7, 3, 2, 3⟩ (fun _ => 128) 0 192).2 ↔
        overlapBytes ⟨7, 3, 2, 3⟩ 0 192 k ≠ 0 ∧
          128 = overlapBytes ⟨7, 3, 2, 3⟩ 0 192 k)) :=
  ⟨⟨by decide,
      fun k => le_trans (overlapBytes_le_chunk ⟨7, 3, 2, 3⟩ 0 192 k)
        (by decide : (Cfg.mk 7 3 2 3).CHUNK_SIZE ≤ 128),
      fun _ => (by decide : (128 : Nat) < 2 ^ 64)⟩,
    free_intended_spec ⟨7, 3, 2, 3⟩ (fun _ => 128) 0 192 (by decide)
      (fun k => le_trans (overlapBytes_le_chunk ⟨7, 3, 2, 3⟩ 0 192 k)
        (by decide : (Cfg.mk 7 3 2 3).CHUNK_SIZE ≤ 128))
      (fun _ => (by decide : (128 : Nat) < 2 ^ 64))⟩

/-- Op: the driver operations over which claim C9 quantifies. -/
inductive Op
  | opAlloc (n : Nat)
  | opUnalloc (n : Nat)
  | opFree (p n : Nat)
  | opSetBegin (p : Nat)

/-- stepOk runs one operation under the preconditions of claim C9: alloc
must pass its capacity check (on failure the C++ throws with the state
unchanged and no step is taken); unalloc requires size <= end - begin; free
requires [p, p + n) within [begin, end) and never writes m_Begin or m_End
(lines 210-241), so the cursors pass through — its leaf releases cannot
affect the cursor window and are omitted from this machine; setBegin
(line 76) is constrained, as the claim states, to move begin only forward
and never past end. -/
def stepOk (c : Cfg) (s : St) : Op → Option St
  | Op.opAlloc n =>
    match alloc c s n with
    | (s1, some _) => some s1
    | (_, none) => none
  | Op.opUnalloc n =>
    if n ≤ s.bufEnd - s.bufBegin then some (unalloc c s n) else none
  | Op.opFree p n =>
    if s.bufBegin ≤ p ∧ p + n ≤ s.bufEnd then some s else none
  | Op.opSetBegin p =>
    if s.bufBegin ≤ p ∧ p ≤ s.bufEnd then some { s with bufBegin := p } else none

def runOps (c : Cfg) : List Op → St → Option St
  | [], s => some s
  | op :: ops, s =>
    match stepOk c s op with
    | none => none
    | some s1 => runOps c ops s1

theorem stepOk_preserves (c : Cfg) (s s1 : St) (op : Op)
    (h : stepOk c s op = some s1)
    (hbe : s.bufBegin ≤ s.bufEnd)
    (hcap : s.bufEnd - alignDownSubtree c s.bufBegin ≤ c.CARDINALITY) :
    s1.bufBegin ≤ s1.bufEnd ∧
      s1.bufEnd - alignDownSubtree c s1.bufBegin ≤ c.CARDINALITY := by
  cases op with
  | opAlloc n =>
    by_cases hc : c.CARDINALITY < s.bufEnd + n - alignDownSubtree c s.bufBegin
    · rw [show stepOk c s (Op.opAlloc n) = none from by
        simp only [stepOk, alloc, if_pos hc]] at h
      exact absurd h (by simp)
    · have hstep : stepOk c s (Op.opAlloc n) = some
          { s with
              bufEnd := s.bufEnd + n
              resident := s.resident + ↑(allocCreates c s.bufEnd n) } := by
        simp only [stepOk, alloc, if_neg hc]
      rw [hstep] at h
      obtain rfl := Option.some_inj.mp h
      refine ⟨?_, ?_⟩
      · show s.bufBegin ≤ s.bufEnd + n
        omega
      · show s.bufEnd + n - alignDownSubtree c s.bufBegin ≤ c.CARDINALITY
        omega
  | opUnalloc n =>
    simp only [stepOk] at h
    by_cases hg : n ≤ s.bufEnd - s.bufBegin
    · rw [if_pos hg] at h
      obtain rfl := Option.some_inj.mp h
      refine ⟨?_, ?_⟩
      · show s.bufBegin ≤ s.bufEnd - n
        omega
      · show s.bufEnd - n - alignDownSubtree c s.bufBegin ≤ c.CARDINALITY
        omega
    · rw [if_neg hg] at h
      exact absurd h (by simp)
  | opFree p n =>
    simp only [stepOk] at h
    by_cases hg : s.bufBegin ≤ p ∧ p + n ≤ s.bufEnd
    · rw [if_pos hg] at h
      obtain rfl := Option.some_inj.mp h
      exact ⟨hbe, hcap⟩
    · rw [if_neg hg] at h
      exact absurd h (by simp)
  | opSetBegin p =>
    simp only [stepOk] at h
    by_cases hg : s.bufBegin ≤ p ∧ p ≤ s.bufEnd
    · rw [if_pos hg] at h
      obtain rfl := Option.some_inj.mp h
      have hmono : alignDownSubtree c s.bufBegin ≤ alignDownSubtree c p := by
        unfold alignDownSubtree
        exact Nat.mul_le_mul_right _ (Nat.div_le_div_right hg.1)
      obtain ⟨hg1, hg2⟩ := hg
      refine ⟨?_, ?_⟩
      · show p ≤ s.bufEnd
        omega
      · show s.bufEnd - alignDownSubtree c p ≤ c.CARDINALITY
        omega
    · rw [if_neg hg] at h
      exact absurd h (by simp)

/-- C9: every state reachable from the empty buffer by alloc, unalloc, free
and setBeginOffset steps whose preconditions hold — with begin moved only
forward and never past end — satisfies the windowed-capacity invariant
end - (begin rounded down to a SUBTREE_CARDINALITY boundary) <=
CARDINALITY. -/
theorem windowed_capacity_invariant (c : Cfg) (ops : List Op) (s1 : St)
    (h : runOps c ops ⟨0, 0, 0⟩ = some s1) :
    s1.bufEnd - alignDownSubtree c s1.bufBegin ≤ c.CARDINALITY := by
  suffices hgen : ∀ ops (s s1 : St), runOps c ops s = some s1 →
      s.bufBegin ≤ s.bufEnd →
      s.bufEnd - alignDownSubtree c s.bufBegin ≤ c.CARDINALITY →
      s1.bufBegin ≤ s1.bufEnd ∧
        s1.bufEnd - alignDownSubtree c s1.bufBegin ≤ c.CARDINALITY by
    refine (hgen ops ⟨0, 0, 0⟩ s1 h (Nat.le_refl 0) ?_).2
    simp
  intro ops
  induction ops with
  | nil =>
    intro s s1 h hbe hcap
    simp only [runOps] at h
    obtain rfl := Option.some_inj.mp h
    exact ⟨hbe, hcap⟩
  | cons op ops ih =>
    intro s s1 h hbe hcap
    simp only [runOps] at h
    cases hst : stepOk c s op with
    | none => rw [hst] at h; exact absurd h (by simp)
    | some s2 =>
      rw [hst] at h
      obtain ⟨hb2, hc2⟩ := stepOk_preserves c s s2 op hst hbe hcap
      exact ih s2 s1 h hb2 hc2

/-- Witness for windowed_capacity_invariant: the sequence alloc 200,
setBeginOffset 100, free [100, 150), unalloc 20 on the CHUNK_SIZE = 128,
MIDDLE_SIZE = 8, L0_SIZE = 4, HEIGHT = 3 configuration. -/
theorem windowed_capacity_invariant_witness :
    runOps ⟨7, 3, 2, 3⟩
        [Op.opAlloc 200, Op.opSetBegin 100, Op.opFree 100 50, Op.opUnalloc 20]
        ⟨0, 0, 0⟩ =
      some ⟨100, 180, ↑[((1 : Nat), (0 : Nat)), (2, 0), (2, 1)]⟩ ∧
    (180 : Nat) - alignDownSubtree ⟨7, 3, 2, 3⟩ 100 ≤ (Cfg.mk 7 3 2 3).CARDINALITY :=
  ⟨by decide,
    windowed_capacity_invariant ⟨7, 3, 2, 3⟩
      [Op.opAlloc 200, Op.opSetBegin 100, Op.opFree 100 50, Op.opUnalloc 20]
      ⟨100, 180, ↑[((1 : Nat), (0 : Nat)), (2, 0), (2, 1)]⟩ (by decide)⟩

namespace StupidAlloc

/-- Pool models StupidAllocator of src/StupidAlocator.hpp: m_Next, the head
of the singly linked free list threaded through the blocks (a free block's
first machine word reused as the next-free link), is embedded as the list
of free blocks in link order; blocks are identified by (arena index, slot
index inside the arena); nextArena counts the arenas obtained from operator
new (never returned to the system); count is the live-block counter m_Count,
a size_t embedded with mod 2 ^ 64 increments and decrements. -/
structure Pool where
  freeList : List (Nat × Nat)
  nextArena : Nat
  count : Nat
  deriving DecidableEq

/-- fill (lines 18-28): allocate one arena of COUNT = 16 blocks and push
block 0, then 1, ..., then 15 onto the free list; afterwards the head is
slot 15 of the new arena and the 16 new blocks precede the old list in
descending slot order. -/
def fill (p : Pool) : Pool :=
  { freeList := ((List.range 16).map (fun i => (p.nextArena, i))).reverse ++ p.freeList
    nextArena := p.nextArena + 1
    count := p.count }

/-- internal_alloc (lines 30-38): if the free list is empty, fill first;
then return the head block, advance the head, increment m_Count.  The none
arm models the null dereference a still-empty list would cause; after fill
the list is never empty, as allocator_contract proves. -/
def internal_alloc (p : Pool) : Option ((Nat × Nat) × Pool) :=
  match (if p.freeList.isEmpty then fill p else p).freeList,
      (if p.freeList.isEmpty then fill p else p) with
  | [], _ => none
  | b :: rest, p1 =>
    some (b, { freeList := rest
               nextArena := p1.nextArena
               count := (p1.count + 1) % 2 ^ 64 })

/-- internal_free (lines 40-46): push the block as the new list head and
decrement m_Count (size_t decrement: add 2 ^ 64 - 1 modulo 2 ^ 64). -/
def internal_free (p : Pool) (b : Nat × Nat) : Pool :=
  { freeList := b :: p.freeList
    nextArena := p.nextArena
    count := (p.count + (2 ^ 64 - 1)) % 2 ^ 64 }

/-- C8: allocate returns the head block of the free list, advances the head
and increments the live-block counter; release pushes the block back as the
new head and decrements the counter; and allocate on an empty free list
first grows the pool by exactly one arena of 16 blocks threaded onto the
list — head slot 15 of the fresh arena — so the subsequent pop succeeds. -/
theorem allocator_contract (p : Pool) :
    (∀ b rest, p.freeList = b :: rest →
      internal_alloc p = some (b, ⟨rest, p.nextArena, (p.count + 1) % 2 ^ 64⟩)) ∧
    (∀ b, internal_free p b =
      ⟨b :: p.freeList, p.nextArena, (p.count + (2 ^ 64 - 1)) % 2 ^ 64⟩) ∧
    (p.freeList = [] →
      internal_alloc p = some ((p.nextArena, 15),
        ⟨((List.range 15).map (fun i => (p.nextArena, i))).reverse,
          p.nextArena + 1, (p.count + 1) % 2 ^ 64⟩)) := by
  rcases p with ⟨fl, na, cnt⟩
  refine ⟨?_, fun b => rfl, ?_⟩
  · intro b rest h
    subst h
    rfl
  · intro h
    subst h
    rfl

/-- Witness for allocator_contract: a pool with a one-block free list (pop
and push) and an empty pool (grow by one 16-block arena, then pop). -/
theorem allocator_contract_witness :
    ((⟨[(3, 7)], 4, 9⟩ : Pool).freeList = (3, 7) :: [] ∧
      internal_alloc ⟨[(3, 7)], 4, 9⟩ =
        some ((3, 7), ⟨[], 4, (9 + 1) % 2 ^ 64⟩)) ∧
    internal_free ⟨[(3, 7)], 4, 9⟩ (5, 5) =
      ⟨[(5, 5), (3, 7)], 4, (9 + (2 ^ 64 - 1)) % 2 ^ 64⟩ ∧
    ((⟨[], 2, 0⟩ : Pool).freeList = [] ∧
      internal_alloc ⟨[], 2, 0⟩ = some ((2, 15),
        ⟨((List.range 15).map (fun i => ((2 : Nat), i))).reverse,
          2 + 1, (0 + 1) % 2 ^ 64⟩)) :=
  ⟨⟨rfl, (allocator_contract ⟨[(3, 7)], 4, 9⟩).1 (3, 7) [] rfl⟩,
    (allocator_contract ⟨[(3, 7)], 4, 9⟩).2.1 (5, 5),
    ⟨rfl, (allocator_contract ⟨[], 2, 0⟩).2.2 rfl⟩⟩

end StupidAlloc

end NetBuf
